import Mathlib

/-!
Verification of the annotapipe resilient data-movement engine.

This file gives a shallow embedding of the parts of the pipeline that the
specification talks about: the resumable, integrity-verified upload protocol
(`src/pipeline/ssh_client.py`, `SSHClient.upload_file`), the persisted state
store (`src/pipeline/state.py`, `StateManager`), the per-item state machine
and finalize step (`src/pipeline/runner.py` `_process_single` and
`src/pipeline/processor.py` `move_to_final`), the scheduler's skip
classification (`PipelineRunner.run`), the SSH connection pool
(`SSHConnectionPool`), and the archive-name candidate generator
(`src/pipeline/utils.py`, `get_zip_name_candidates`).

Byte strings are modelled as `List Nat`; the MD5 digest is modelled as an
arbitrary function `hash : List Nat → Nat` (the code only ever compares two
digests for equality).  Remote-command and collaborator results that the
code merely branches on are supplied as explicit environment parameters.
-/

namespace AnnotaPipe

/-! ## Upload protocol (ssh_client.py, `SSHClient.upload_file`)

The remote filesystem seen by one upload call has two relevant paths:
the temporary sibling `remote_path + ".uploading"` and the final
`remote_path`.  `none` means the path does not exist. -/

structure RemoteFS where
  temp : Option (List Nat)
  final : Option (List Nat)
deriving DecidableEq

/-- Lines 146-155: with `resume` the code stats the temp file and takes its
size as the number of bytes already uploaded; a missing temp file (or
`resume=False`) gives zero. -/
def probeSize (resume : Bool) (fs : RemoteFS) : Nat :=
  if resume then
    match fs.temp with
    | some t => t.length
    | none => 0
  else 0

/-- Lines 157-203: if some bytes were already uploaded and `verify` is on,
the code re-stats the temp file, computes the MD5 of the first
`uploaded_size` bytes of the local file (`calc_file_md5(local_path,
uploaded_size)`) and the MD5 of the whole temp file (`md5sum`), deletes the
temp file and resets the offset to zero on mismatch, and keeps the offset on
match.  Returns the offset the transfer will start from, and the filesystem
after any deletion. -/
def verifyUploaded (hash : List Nat → Nat) (localBytes : List Nat)
    (fs : RemoteFS) (k : Nat) (verify : Bool) : Nat × RemoteFS :=
  if 0 < k ∧ verify then
    match fs.temp with
    | none => (0, fs)
    | some t =>
      if 0 < t.length then
        if hash (localBytes.take t.length) = hash t then (t.length, fs)
        else (0, { fs with temp := none })
      else (t.length, fs)
  else (k, fs)

/-- Lines 211-258: if the start offset already covers the local size the
transfer loop is skipped entirely (and in particular the temp file is not
created when it does not exist).  Otherwise the local file is read from the
offset and the bytes are appended to the temp file, which is opened in
append mode when the offset is positive and in (truncating) write mode when
it is zero. -/
def transferPhase (localBytes : List Nat) (fs : RemoteFS) (k : Nat) :
    RemoteFS :=
  if localBytes.length ≤ k then fs
  else
    let base := if 0 < k then fs.temp.getD [] else []
    { fs with temp := some (base ++ localBytes.drop k) }

/-- Lines 260-329: post-transfer validation and promotion.  The code stats
the temp file (a missing file raises, and the handler keeps the temp file
under `resume` and removes it otherwise); a size mismatch raises with the
same handler; a whole-file MD5 mismatch removes the temp file and raises;
otherwise any pre-existing final file is removed and the temp file is
renamed onto the final name. -/
def finalValidation (hash : List Nat → Nat) (localBytes : List Nat)
    (fs : RemoteFS) (verify resume : Bool) : Bool × RemoteFS :=
  match fs.temp with
  | none => (false, fs)
  | some t =>
    if t.length ≠ localBytes.length then
      (false, if resume then fs else { fs with temp := none })
    else if verify ∧ hash t ≠ hash localBytes then
      (false, { fs with temp := none })
    else
      (true, { temp := none, final := some t })

structure UploadResult where
  success : Bool
  fs : RemoteFS
  startOffset : Nat
deriving DecidableEq

/-- Model of `SSHClient.upload_file` (lines 145-329): probe the checkpoint, verify
the already-uploaded prefix, transfer the remaining bytes, validate and
promote.  `startOffset` is the value of `uploaded_size` when the transfer
loop is entered. -/
def upload_file (hash : List Nat → Nat) (localBytes : List Nat)
    (fs : RemoteFS) (verify resume : Bool) : UploadResult :=
  let k0 := probeSize resume fs
  let kfs := verifyUploaded hash localBytes fs k0 verify
  let fs2 := transferPhase localBytes kfs.2 kfs.1
  let r := finalValidation hash localBytes fs2 verify resume
  ⟨r.1, r.2, kfs.1⟩

/-! ## Persisted state store (state.py, `StateManager`)

The in-memory map `_state` is modelled as an association list in insertion
order (Python dict semantics: updating an existing key keeps its position,
a new key is appended).  `_save` is modelled by the filesystem operations it
performs: it opens the state file itself for writing and dumps the whole
map into it. -/

inductive ProcessStatus
  | pending
  | downloaded
  | uploaded
  | processed
  | checked
  | completed
  | failed
deriving DecidableEq

/-- String values of the `ProcessStatus` enum. -/
def ProcessStatus.value : ProcessStatus → String
  | .pending => "pending"
  | .downloaded => "downloaded"
  | .uploaded => "uploaded"
  | .processed => "processed"
  | .checked => "checked"
  | .completed => "completed"
  | .failed => "failed"

structure StateRecord where
  status : String
  updatedAt : String
  error : Option String
deriving DecidableEq

abbrev StateMap := List (String × StateRecord)

/-- Python dict assignment `self._state[stem] = record`. -/
def upsert : StateMap → String → StateRecord → StateMap
  | [], k, v => [(k, v)]
  | (k1, v1) :: rest, k, v =>
    if k1 = k then (k, v) :: rest else (k1, v1) :: upsert rest k v

/-- Python dict lookup `self._state.get(stem)`. -/
def lookupState : StateMap → String → Option StateRecord
  | [], _ => none
  | (k1, v1) :: rest, k => if k1 = k then some v1 else lookupState rest k

/-- Filesystem operations a save can perform. -/
inductive StateFsOp
  | write (path : String) (content : StateMap)
  | rename (src dst : String)
deriving DecidableEq

def stateFileName : String := "pipeline_state.json"

/-- Model of `StateManager._save` (lines 47-54): a single direct write of the whole
serialized map to the state file. -/
def save_ops (st : StateMap) : List StateFsOp :=
  [StateFsOp.write stateFileName st]

/-- Model of `StateManager.update` (lines 61-69): upsert the record for `stem` and
save the whole map; returns the new map and the file operations performed. -/
def stateUpdate (st : StateMap) (stem : String) (status : ProcessStatus)
    (error : Option String) (now : String) : StateMap × List StateFsOp :=
  let st1 := upsert st stem ⟨status.value, now, error⟩
  (st1, save_ops st1)

/-- Modelled from the spec (claim side): the write is atomic at the file
level, i.e. the operations never write the target file directly and instead
write some other temporary file and rename it onto the target. -/
def atomicTempRenameWrite (ops : List StateFsOp) (target : String) : Prop :=
  (∀ c, StateFsOp.write target c ∉ ops) ∧
  ∃ tmp c, tmp ≠ target ∧ StateFsOp.write tmp c ∈ ops ∧
    StateFsOp.rename tmp target ∈ ops

/-- Model of `StateManager.get_status` (lines 56-59). -/
def get_status (st : StateMap) (stem : String) : Option String :=
  (lookupState st stem).map StateRecord.status

/-- Model of `StateManager.can_skip_download` (lines 75-84): membership of the
recorded status in the five listed values; an absent record gives false. -/
def can_skip_download (st : StateMap) (stem : String) : Bool :=
  match get_status st stem with
  | some s =>
    decide (s ∈ [ProcessStatus.downloaded.value, ProcessStatus.uploaded.value,
      ProcessStatus.processed.value, ProcessStatus.checked.value,
      ProcessStatus.completed.value])
  | none => false

/-- Model of `StateManager.can_skip_upload` (lines 86-94). -/
def can_skip_upload (st : StateMap) (stem : String) : Bool :=
  match get_status st stem with
  | some s =>
    decide (s ∈ [ProcessStatus.uploaded.value, ProcessStatus.processed.value,
      ProcessStatus.checked.value, ProcessStatus.completed.value])
  | none => false

/-- Position of a stage in the forward order
PENDING, DOWNLOADED, UPLOADED, PROCESSED, CHECKED, COMPLETED. -/
def stageIdx : ProcessStatus → Nat
  | .pending => 0
  | .downloaded => 1
  | .uploaded => 2
  | .processed => 3
  | .checked => 4
  | .completed => 5
  | .failed => 6

/-! ## Per-item processing (runner.py `_process_single`,
processor.py `move_to_final`, runner.py `run` classification)

One item's pass through the state machine is driven by the outcomes of the
collaborator calls (download, upload, remote extraction, remote check,
remote move, NAS backup); those outcomes are collected in `ItemEnv`.  The
model records the side-effecting operations performed on the item, the
state-store updates issued for it, and the boolean the function returns.
All paths used by one `_process_single` call are derived from the single
item's stem, so an operation is identified by its kind; the scheduler model
below tags each operation with the stem of the item it was performed
for. -/

inductive OpK
  | download
  | upload
  | probeWorkDir
  | removeDataDir
  | extractZip (attempt : Nat)
  | runCheck
  | probeKf
  | downloadReport
  | removeDstDir
  | moveDir
  | renameRemoteZip
  | deleteRemoteZip
  | deleteLocalArchive
  | nasBackup
deriving DecidableEq

/-- Collaborator outcomes and preconditions for one item, read off at the
points where `_process_single` branches on them. -/
structure ItemEnv where
  skipDownload : Bool
  skipUpload : Bool
  serverHasZip : Bool
  localOnDisk : Bool
  localSizePos : Bool
  inProcessing : Bool
  downloadOk : Bool
  uploadOk : Bool
  kfExisting : Nat
  extractOk1 : Bool
  extractOk2 : Bool
  extractErr2 : String
  checkScriptOk : Bool
  issueFrames : Nat
  kf : Nat
  srcDirExists : Bool
  dstDirExists : Bool
  mvOk : Bool
  zipAfterProcess : String
  nasEnabled : Bool
  backupOk : Bool
  backupStopOnError : Bool
deriving DecidableEq

structure Outcome where
  ops : List OpK
  updates : List (ProcessStatus × Option String)
  ok : Bool
deriving DecidableEq

/-- Model of `RemoteProcessor.move_to_final` (processor.py lines 285-313): fail if
the source directory is missing; delete a pre-existing destination; `mv`
the working directory onto the final directory and fail if the `mv` fails;
only then rename or delete the remote source archive according to
`zip_after_process`. -/
def move_to_final (srcExists dstExists mvOk : Bool) (zipAfter : String) :
    Bool × List OpK :=
  if !srcExists then (false, [])
  else
    let ops1 := (if dstExists then [OpK.removeDstDir] else []) ++
      [OpK.moveDir]
    if !mvOk then (false, ops1)
    else if zipAfter = "rename" then (true, ops1 ++ [OpK.renameRemoteZip])
    else if zipAfter = "delete" then (true, ops1 ++ [OpK.deleteRemoteZip])
    else (true, ops1)

/-- The state-store error annotation written when the remote check reports
issues (runner.py line 681); `issue_count` is `-1` when the check script
itself failed (processor.py line 203). -/
def checkFailMsg (issueCount : Int) : String :=
  "检查失败: " ++ toString issueCount ++ " 个问题帧"

/-- Operations performed and state updates issued so far for one item. -/
structure Acc where
  ops : List OpK
  ups : List (ProcessStatus × Option String)
deriving DecidableEq

/-- Step 1 of `_process_single` (runner.py lines 559-592): download the
archive when no skip condition applies; a failed download records FAILED
and aborts the item. -/
def dlPhase (e : ItemEnv) (a : Acc) : Acc × Bool :=
  let localExists := e.localOnDisk && e.localSizePos
  let needDownload := !e.skipDownload && !e.serverHasZip && !localExists
  if needDownload then
    if e.downloadOk then
      (⟨a.ops ++ [OpK.download],
        a.ups ++ [(ProcessStatus.downloaded, none)]⟩, true)
    else
      (⟨a.ops ++ [OpK.download],
        a.ups ++ [(ProcessStatus.failed, some "下载失败")]⟩, false)
  else (a, true)

/-- Step 2 of `_process_single` (runner.py lines 594-625): upload the
archive when no skip condition applies (after step 1 the local file is on
disk whenever the download ran); a failed upload records FAILED and aborts
the item. -/
def upPhase (e : ItemEnv) (a : Acc) : Acc × Bool :=
  let localExists := e.localOnDisk && e.localSizePos
  let needDownload := !e.skipDownload && !e.serverHasZip && !localExists
  let localOnDisk2 := e.localOnDisk || needDownload
  let needUpload := !e.skipUpload && !e.serverHasZip && localOnDisk2
  if needUpload then
    if e.uploadOk then
      (⟨a.ops ++ [OpK.upload],
        a.ups ++ [(ProcessStatus.uploaded, none)]⟩, true)
    else
      (⟨a.ops ++ [OpK.upload],
        a.ups ++ [(ProcessStatus.failed, some "上传失败")]⟩, false)
  else (a, true)

/-- Steps 3-5 of `_process_single` (runner.py lines 627-667): a
pre-existing working directory is probed and kept when its keyframe count
is positive, deleted otherwise; extraction runs with one retry (cleaning
up between attempts); exhausting the retries records FAILED with the last
error and aborts; success records PROCESSED. -/
def extractPhase (e : ItemEnv) (a : Acc) : Acc × Bool :=
  let probeOps : List OpK :=
    if e.inProcessing then
      OpK.probeWorkDir ::
        (if 0 < e.kfExisting then [] else [OpK.removeDataDir])
    else []
  let needExtract := !e.inProcessing || decide (e.kfExisting = 0)
  let a1 : Acc := ⟨a.ops ++ probeOps, a.ups⟩
  if needExtract then
    if e.extractOk1 then
      (⟨a1.ops ++ [OpK.extractZip 1],
        a1.ups ++ [(ProcessStatus.processed, none)]⟩, true)
    else if e.extractOk2 then
      (⟨a1.ops ++ [OpK.extractZip 1, OpK.removeDataDir, OpK.extractZip 2],
        a1.ups ++ [(ProcessStatus.processed, none)]⟩, true)
    else
      (⟨a1.ops ++ [OpK.extractZip 1, OpK.removeDataDir, OpK.extractZip 2,
          OpK.removeDataDir],
        a1.ups ++ [(ProcessStatus.failed, some e.extractErr2)]⟩, false)
  else (⟨a1.ops, a1.ups ++ [(ProcessStatus.processed, none)]⟩, true)

/-- Step 6 of `_process_single` (runner.py lines 669-688): run the remote
check and the keyframe probe; a failed check (non-zero issue count, or a
failed check script reported as count -1) records CHECKED with the error
annotation, downloads the report and aborts; a passed check records
CHECKED with no error. -/
def checkPhase (e : ItemEnv) (a : Acc) : Acc × Bool :=
  let passed := e.checkScriptOk && decide (e.issueFrames = 0)
  let issueCount : Int := if e.checkScriptOk then e.issueFrames else -1
  let a1 : Acc := ⟨a.ops ++ [OpK.runCheck, OpK.probeKf], a.ups⟩
  if !passed then
    (⟨a1.ops ++ [OpK.downloadReport],
      a1.ups ++ [(ProcessStatus.checked, some (checkFailMsg issueCount))]⟩,
      false)
  else (⟨a1.ops, a1.ups ++ [(ProcessStatus.checked, none)]⟩, true)

/-- Step 7 of `_process_single` (runner.py lines 690-727): move to the
final directory; on success record COMPLETED and optionally back up to
NAS (a failed backup aborts only when configured to stop on error); a
failed move aborts with no state update. -/
def movePhase (e : ItemEnv) (a : Acc) : Acc × Bool :=
  let mv := move_to_final e.srcDirExists e.dstDirExists e.mvOk
    e.zipAfterProcess
  let a1 : Acc := ⟨a.ops ++ mv.2, a.ups⟩
  if mv.1 then
    let a2 : Acc := ⟨a1.ops, a1.ups ++ [(ProcessStatus.completed, none)]⟩
    if e.nasEnabled then
      let a3 : Acc := ⟨a2.ops ++ [OpK.nasBackup], a2.ups⟩
      if !e.backupOk && e.backupStopOnError then (a3, false) else (a3, true)
    else (a2, true)
  else (a1, false)

/-- Model of `PipelineRunner._process_single` (runner.py lines 533-736): the phases
run in order and every failing phase aborts the item immediately with the
operations and state updates performed so far (the code's early
`return False`). -/
def processSingle (e : ItemEnv) : Outcome :=
  let r1 := dlPhase e ⟨[], []⟩
  if !r1.2 then ⟨r1.1.ops, r1.1.ups, false⟩ else
  let r2 := upPhase e r1.1
  if !r2.2 then ⟨r2.1.ops, r2.1.ups, false⟩ else
  let r3 := extractPhase e r2.1
  if !r3.2 then ⟨r3.1.ops, r3.1.ups, false⟩ else
  let r4 := checkPhase e r3.1
  if !r4.2 then ⟨r4.1.ops, r4.1.ups, false⟩ else
  let r5 := movePhase e r4.1
  ⟨r5.1.ops, r5.1.ups, r5.2⟩

/-- Model of `PipelineRunner.run` (lines 221-243): an item whose stem is among the
finalized remote directories and whose keyframe probe is positive is
classified as already complete; every other item goes to
`files_to_process`.  Returns (skipped, files_to_process), preserving
order. -/
def classifyItems (processedDirs : List String) (kfProbe : String → Nat) :
    List String → List String × List String
  | [] => ([], [])
  | s :: rest =>
    let r := classifyItems processedDirs kfProbe rest
    if s ∈ processedDirs ∧ 0 < kfProbe s then (s :: r.1, r.2)
    else (r.1, s :: r.2)

/-- All per-item operations a scheduler run performs, each tagged with the
stem of the item it belongs to: only items classified into
`files_to_process` are driven through `_process_single`. -/
def runRemoteOps (processedDirs : List String) (kfProbe : String → Nat)
    (stems : List String) (env : String → ItemEnv) :
    List (String × OpK) :=
  ((classifyItems processedDirs kfProbe stems).2).flatMap
    (fun s => (processSingle (env s)).ops.map (fun k => (s, k)))

/-! ## SSH connection pool (runner.py, `SSHConnectionPool`)

The idle queue is modelled by the number of idle connections it holds; a
`get` that finds the queue non-empty takes from it, otherwise a new
connection is created only while `_created < _size` (and `_created` is
incremented only when the connect succeeds); otherwise the call blocks
waiting on the queue.  `put` returns still-connected clients to the queue
and drops dead ones; `close_all` drains the queue. -/

structure PoolState where
  idle : Nat
  created : Nat
  size : Nat
deriving DecidableEq

inductive PoolOp
  | get (connectOk : Bool)
  | put (alive : Bool)
  | closeAll
deriving DecidableEq

inductive GetRes
  | fromPool
  | newConn
  | waited
deriving DecidableEq

/-- One pool operation (`SSHConnectionPool.get` lines 105-123, `put` lines
125-128, `close_all` lines 130-137). -/
def poolStep (st : PoolState) (op : PoolOp) : PoolState × Option GetRes :=
  match op with
  | .get connectOk =>
    if 0 < st.idle then ({ st with idle := st.idle - 1 }, some GetRes.fromPool)
    else if st.created < st.size then
      if connectOk then
        ({ st with created := st.created + 1 }, some GetRes.newConn)
      else (st, some GetRes.waited)
    else (st, some GetRes.waited)
  | .put alive =>
    if alive then ({ st with idle := st.idle + 1 }, none) else (st, none)
  | .closeAll => ({ st with idle := 0 }, none)

/-- Run a sequence of pool operations; the second component counts how many
connections were created. -/
def poolRun (st : PoolState) : List PoolOp → PoolState × Nat
  | [] => (st, 0)
  | op :: rest =>
    let r1 := poolStep st op
    let r2 := poolRun r1.1 rest
    (r2.1, (if r1.2 = some GetRes.newConn then 1 else 0) + r2.2)

/-- A freshly constructed pool of size `n` (`__init__` lines 98-103). -/
def poolInit (n : Nat) : PoolState := ⟨0, 0, n⟩

/-! ## Archive-name candidates (utils.py, `get_zip_name_candidates`)

Names are modelled as `List Char`.  The two regex substitutions are
`re.sub(r'_rere_\d+$', '', stem)` and
`re.sub(r'_\d{1,2}_rere_\d+$', '', stem)`. -/

def zipSuffix : List Char := ['.', 'z', 'i', 'p']

/-- The six characters of `"_rere_"` reversed. -/
def rereRev : List Char := ['_', 'e', 'r', 'e', 'r', '_']

/-- Model of the substitution removing a rere suffix: if the name ends in `_rere_` followed
by one or more digits, remove that suffix. -/
def stripRere (s : List Char) : List Char :=
  let r := s.reverse
  let ds := r.takeWhile Char.isDigit
  let rest := r.dropWhile Char.isDigit
  if ds ≠ [] ∧ rest.take 6 = rereRev then (rest.drop 6).reverse else s

/-- Model of the substitution removing a numbered rere suffix: if the name ends in an
underscore, one or two digits, `_rere_` and one or more digits, remove that
suffix.  A longer digit run before `_rere_` leaves the name unchanged
because the character before the last two digits is then a digit, not an
underscore. -/
def stripNumRere (s : List Char) : List Char :=
  let r := s.reverse
  let d1 := r.takeWhile Char.isDigit
  let r1 := r.dropWhile Char.isDigit
  if d1 = [] then s
  else if r1.take 6 ≠ rereRev then s
  else
    let r2 := r1.drop 6
    let d2 := r2.takeWhile Char.isDigit
    if (d2.length = 1 ∨ d2.length = 2) ∧ (r2.drop d2.length).take 1 = ['_']
    then ((r2.drop d2.length).drop 1).reverse
    else s

/-- Model of `get_zip_name_candidates` (utils.py lines 30-67): candidate 1 strips
`_rere_N`, candidate 2 additionally strips a preceding `_d` or `_dd` (only
kept when new and different from the stem), and the stem itself is the
fallback (only kept when not already present); each candidate gets the
`.zip` extension. -/
def get_zip_name_candidates (stem : List Char) : List (List Char) :=
  let c1 := stripRere stem
  let base1 := [c1 ++ zipSuffix]
  let seen1 := [c1]
  let c2 := stripNumRere stem
  let base2 := if c2 ∉ seen1 ∧ c2 ≠ stem then base1 ++ [c2 ++ zipSuffix]
    else base1
  let seen2 := if c2 ∉ seen1 ∧ c2 ≠ stem then seen1 ++ [c2] else seen1
  if stem ∉ seen2 then base2 ++ [stem ++ zipSuffix] else base2

end AnnotaPipe

namespace AnnotaPipe

/-! ## Helper lemmas -/

theorem upsert_lookup_self (st : StateMap) (k : String) (v : StateRecord) :
    lookupState (upsert st k v) k = some v := by
  induction st with
  | nil => simp [upsert, lookupState]
  | cons hd tl ih =>
    by_cases h : hd.1 = k
    · simp [upsert, lookupState, h]
    · simp [upsert, lookupState, h, ih]

theorem upsert_lookup_other (st : StateMap) (k s : String)
    (v : StateRecord) (hne : s ≠ k) :
    lookupState (upsert st k v) s = lookupState st s := by
  induction st with
  | nil => simp [upsert, lookupState, hne.symm]
  | cons hd tl ih =>
    obtain ⟨k1, v1⟩ := hd
    by_cases h : k1 = k
    · subst h
      simp [upsert, lookupState, hne.symm]
    · by_cases h2 : k1 = s
      · simp [upsert, lookupState, h, h2, hne]
      · simp [upsert, lookupState, h, h2, ih]

/-! ## Claim theorems -/

/-- C1: with resume enabled and a non-empty temp file of size k, the upload
compares the checksum of the first k local bytes with the checksum of the
temp file; a mismatch deletes the temp file and restarts the transfer at
offset zero, a match resumes appending at offset k; consequently, for an
injective checksum, a temp file whose bytes differ from the local prefix
forces a restart from zero. -/
theorem upload_resumes_iff_prefix_checksum_matches
    (hash : List Nat → Nat) (localBytes t : List Nat) (fs : RemoteFS)
    (htemp : fs.temp = some t) (hne : t ≠ []) :
    (hash (localBytes.take t.length) ≠ hash t →
      verifyUploaded hash localBytes fs (probeSize true fs) true =
        (0, { fs with temp := none }) ∧
      (upload_file hash localBytes fs true true).startOffset = 0 ∧
      (localBytes ≠ [] →
        (transferPhase localBytes { fs with temp := none } 0).temp =
          some localBytes)) ∧
    (hash (localBytes.take t.length) = hash t →
      (upload_file hash localBytes fs true true).startOffset = t.length ∧
      (t.length < localBytes.length →
        (transferPhase localBytes fs t.length).temp =
          some (t ++ localBytes.drop t.length))) ∧
    (Function.Injective hash → t ≠ localBytes.take t.length →
      (upload_file hash localBytes fs true true).startOffset = 0) := by
  have hlen : 0 < t.length := List.length_pos.mpr hne
  have hprobe : probeSize true fs = t.length := by
    simp [probeSize, htemp]
  refine ⟨?_, ?_, ?_⟩
  · intro hmis
    have hv : verifyUploaded hash localBytes fs (probeSize true fs) true =
        (0, { fs with temp := none }) := by
      rw [hprobe]
      simp [verifyUploaded, htemp, hlen, hmis]
    refine ⟨hv, ?_, ?_⟩
    · simp [upload_file, hv]
    · intro hl
      have : 0 < localBytes.length := List.length_pos.mpr hl
      simp [transferPhase, Nat.not_le.mpr this]
  · intro hmatch
    have hv : verifyUploaded hash localBytes fs (probeSize true fs) true =
        (t.length, fs) := by
      rw [hprobe]
      simp [verifyUploaded, htemp, hlen, hmatch]
    refine ⟨?_, ?_⟩
    · simp [upload_file, hv]
    · intro hlt
      simp [transferPhase, Nat.not_le.mpr hlt, hlen, htemp]
  · intro hinj hneq
    have hmis : hash (localBytes.take t.length) ≠ hash t := by
      intro h
      exact hneq (hinj h).symm
    have hv : verifyUploaded hash localBytes fs (probeSize true fs) true =
        (0, { fs with temp := none }) := by
      rw [hprobe]
      simp [verifyUploaded, htemp, hlen, hmis]
    simp [upload_file, hv]

/-- Witness for C1 at a concrete corrupted temp file. -/
theorem upload_resumes_iff_prefix_checksum_matches_witness :
    (((fun l : List Nat => l.sum) ([9, 9].take 2 : List Nat) ≠
        (fun l : List Nat => l.sum) [5, 5] →
      verifyUploaded (fun l : List Nat => l.sum) [9, 9]
          ⟨some [5, 5], none⟩ (probeSize true ⟨some [5, 5], none⟩) true =
        (0, ⟨none, none⟩) ∧
      (upload_file (fun l : List Nat => l.sum) [9, 9]
          ⟨some [5, 5], none⟩ true true).startOffset = 0 ∧
      (([9, 9] : List Nat) ≠ [] →
        (transferPhase [9, 9] ⟨none, none⟩ 0).temp = some [9, 9])) ∧
    ((fun l : List Nat => l.sum) ([9, 9].take 2 : List Nat) =
        (fun l : List Nat => l.sum) [5, 5] →
      (upload_file (fun l : List Nat => l.sum) [9, 9]
          ⟨some [5, 5], none⟩ true true).startOffset = 2 ∧
      (2 < ([9, 9] : List Nat).length →
        (transferPhase [9, 9] ⟨some [5, 5], none⟩ 2).temp =
          some ([5, 5] ++ [9, 9].drop 2))) ∧
    (Function.Injective (fun l : List Nat => l.sum) →
      ([5, 5] : List Nat) ≠ [9, 9].take 2 →
      (upload_file (fun l : List Nat => l.sum) [9, 9]
          ⟨some [5, 5], none⟩ true true).startOffset = 0)) :=
  upload_resumes_iff_prefix_checksum_matches
    (fun l : List Nat => l.sum) [9, 9] [5, 5] ⟨some [5, 5], none⟩ rfl
    (by decide)

/-- C2: after the transfer phase, a size mismatch between the temp file and
the local file fails the upload and (with resume on) preserves the temp
file, while a whole-file checksum mismatch at equal sizes deletes the temp
file and fails the upload. -/
theorem post_transfer_validation
    (hash : List Nat → Nat) (localBytes t : List Nat)
    (fin : Option (List Nat)) :
    (t.length ≠ localBytes.length →
      finalValidation hash localBytes ⟨some t, fin⟩ true true =
        (false, ⟨some t, fin⟩)) ∧
    (t.length = localBytes.length → hash t ≠ hash localBytes →
      finalValidation hash localBytes ⟨some t, fin⟩ true true =
        (false, ⟨none, fin⟩)) := by
  constructor
  · intro hsz
    simp [finalValidation, hsz]
  · intro hsz hmd5
    simp [finalValidation, hsz, hmd5]

/-- Witness for C2 at a concrete oversized and a concrete corrupted temp
file. -/
theorem post_transfer_validation_witness :
    ((([7, 7, 7] : List Nat).length ≠ ([1, 2] : List Nat).length →
      finalValidation (fun l : List Nat => l.sum) [1, 2]
          ⟨some [7, 7, 7], some [0]⟩ true true =
        (false, ⟨some [7, 7, 7], some [0]⟩)) ∧
    (([7, 7, 7] : List Nat).length = ([1, 2] : List Nat).length →
      (fun l : List Nat => l.sum) [7, 7, 7] ≠
        (fun l : List Nat => l.sum) [1, 2] →
      finalValidation (fun l : List Nat => l.sum) [1, 2]
          ⟨some [7, 7, 7], some [0]⟩ true true =
        (false, ⟨none, some [0]⟩))) :=
  post_transfer_validation (fun l : List Nat => l.sum) [1, 2] [7, 7, 7]
    (some [0])

/-- C3 counterexample: a concrete update performs a single direct write to
the state file itself, with no temporary file and no rename, so the
claimed write-temp-then-rename atomicity does not hold. -/
theorem state_save_not_atomic :
    ¬ atomicTempRenameWrite
      (stateUpdate [] "a" ProcessStatus.downloaded none "t0").2
      stateFileName := by
  intro h
  exact h.1 [("a", ⟨ProcessStatus.downloaded.value, "t0", none⟩)]
    (by simp [stateUpdate, save_ops, upsert])

/-- C3 amended: every update serializes the whole updated map and writes it
to the state file in one direct write (no temporary file, no rename); the
written map holds the new record for the updated item and leaves every
other item's record unchanged. -/
theorem state_update_whole_map_direct_write
    (st : StateMap) (stem : String) (status : ProcessStatus)
    (error : Option String) (now : String) :
    (stateUpdate st stem status error now).2 =
      [StateFsOp.write stateFileName
        (stateUpdate st stem status error now).1] ∧
    lookupState (stateUpdate st stem status error now).1 stem =
      some ⟨status.value, now, error⟩ ∧
    (∀ s, s ≠ stem →
      lookupState (stateUpdate st stem status error now).1 s =
        lookupState st s) ∧
    (∀ a b, StateFsOp.rename a b ∉ (stateUpdate st stem status error now).2) := by
  refine ⟨rfl, upsert_lookup_self .., ?_, ?_⟩
  · intro s hs
    exact upsert_lookup_other st stem s _ hs
  · intro a b
    simp [stateUpdate, save_ops]

/-- Witness for the amended C3 at a concrete update. -/
theorem state_update_whole_map_direct_write_witness :
    lookupState (stateUpdate [] "a" ProcessStatus.uploaded none "t1").1 "a" =
      some ⟨ProcessStatus.uploaded.value, "t1", none⟩ :=
  (state_update_whole_map_direct_write [] "a" ProcessStatus.uploaded none
    "t1").2.1

/-- C5 counterexample: a record at stage DOWNLOADED already allows skipping
the download, and a record at stage UPLOADED already allows skipping the
upload, so the claimed thresholds (UPLOADED-or-later, PROCESSED-or-later)
are wrong in the only-if direction. -/
theorem skip_thresholds_counterexample :
    (can_skip_download [("a", ⟨"downloaded", "t0", none⟩)] "a" = true ∧
      get_status [("a", ⟨"downloaded", "t0", none⟩)] "a" ∉
        [some ProcessStatus.uploaded.value,
         some ProcessStatus.processed.value,
         some ProcessStatus.checked.value,
         some ProcessStatus.completed.value]) ∧
    (can_skip_upload [("a", ⟨"uploaded", "t0", none⟩)] "a" = true ∧
      get_status [("a", ⟨"uploaded", "t0", none⟩)] "a" ∉
        [some ProcessStatus.processed.value,
         some ProcessStatus.checked.value,
         some ProcessStatus.completed.value]) := by
  refine ⟨⟨?_, ?_⟩, ?_, ?_⟩ <;>
    simp [can_skip_download, can_skip_upload, get_status, lookupState,
      ProcessStatus.value]

/-- C5 amended: for a recorded stage `s`, download can be skipped iff `s`
is DOWNLOADED or later in the forward order (never for FAILED), and upload
can be skipped iff `s` is UPLOADED or later (never for FAILED). -/
theorem skip_thresholds (st : StateMap) (stem : String) (s : ProcessStatus)
    (h : get_status st stem = some s.value) :
    (can_skip_download st stem = true ↔
      (stageIdx ProcessStatus.downloaded ≤ stageIdx s ∧
        s ≠ ProcessStatus.failed)) ∧
    (can_skip_upload st stem = true ↔
      (stageIdx ProcessStatus.uploaded ≤ stageIdx s ∧
        s ≠ ProcessStatus.failed)) := by
  cases s <;>
    simp [can_skip_download, can_skip_upload, h, stageIdx,
      ProcessStatus.value]

/-- Witness for the amended C5 at a concrete DOWNLOADED record. -/
theorem skip_thresholds_witness :
    (can_skip_download [("a", ⟨"downloaded", "t0", none⟩)] "a" = true ↔
      (stageIdx ProcessStatus.downloaded ≤
          stageIdx ProcessStatus.downloaded ∧
        ProcessStatus.downloaded ≠ ProcessStatus.failed)) ∧
    (can_skip_upload [("a", ⟨"downloaded", "t0", none⟩)] "a" = true ↔
      (stageIdx ProcessStatus.uploaded ≤
          stageIdx ProcessStatus.downloaded ∧
        ProcessStatus.downloaded ≠ ProcessStatus.failed)) :=
  skip_thresholds [("a", ⟨"downloaded", "t0", none⟩)] "a"
    ProcessStatus.downloaded (by rfl)

/-- C6 counterexample: in a run where every stage succeeds, finalize
performs the working-directory rename and the remote archive rename, but
no operation deleting the local archive is ever performed, so the claim
that finalize triggers deletion of the local archive is false. -/
theorem finalize_never_deletes_local_archive :
    (processSingle ⟨false, false, false, true, true, false, true, true, 0,
        true, true, "", true, 0, 5, true, false, true, "rename", false,
        true, false⟩).ok = true ∧
    OpK.moveDir ∈ (processSingle ⟨false, false, false, true, true, false,
        true, true, 0, true, true, "", true, 0, 5, true, false, true,
        "rename", false, true, false⟩).ops ∧
    OpK.renameRemoteZip ∈ (processSingle ⟨false, false, false, true, true,
        false, true, true, 0, true, true, "", true, 0, 5, true, false,
        true, "rename", false, true, false⟩).ops ∧
    OpK.deleteLocalArchive ∉ (processSingle ⟨false, false, false, true,
        true, false, true, true, 0, true, true, "", true, 0, 5, true,
        false, true, "rename", false, true, false⟩).ops := by
  refine ⟨?_, ?_, ?_, ?_⟩ <;> decide

/-- C6 amended: the remote source archive is renamed (or deleted, per
configuration) only after the working-directory rename succeeded; if the
rename fails, finalize reports failure and performs no archive operation;
and no path of finalize deletes the local archive. -/
theorem finalize_archive_ops_only_after_rename (dstExists : Bool)
    (zipAfter : String) :
    (move_to_final true dstExists false zipAfter =
      (false, (if dstExists then [OpK.removeDstDir] else []) ++
        [OpK.moveDir])) ∧
    (move_to_final true dstExists true "rename" =
      (true, (if dstExists then [OpK.removeDstDir] else []) ++
        [OpK.moveDir, OpK.renameRemoteZip])) ∧
    (move_to_final true dstExists true "delete" =
      (true, (if dstExists then [OpK.removeDstDir] else []) ++
        [OpK.moveDir, OpK.deleteRemoteZip])) ∧
    (∀ srcExists mvOk : Bool,
      OpK.deleteLocalArchive ∉
        (move_to_final srcExists dstExists mvOk zipAfter).2) ∧
    (∀ srcExists mvOk : Bool,
      (OpK.renameRemoteZip ∈
          (move_to_final srcExists dstExists mvOk zipAfter).2 ∨
        OpK.deleteRemoteZip ∈
          (move_to_final srcExists dstExists mvOk zipAfter).2) →
      (move_to_final srcExists dstExists mvOk zipAfter).1 = true) := by
  refine ⟨?_, ?_, ?_, ?_, ?_⟩
  · cases dstExists <;> simp [move_to_final]
  · cases dstExists <;> simp [move_to_final]
  · cases dstExists <;> simp [move_to_final]
  · intro srcExists mvOk
    cases srcExists <;> cases mvOk <;> cases dstExists <;>
      simp [move_to_final] <;> split_ifs <;> simp
  · intro srcExists mvOk h
    cases srcExists <;> cases mvOk <;> cases dstExists <;>
      revert h <;> simp [move_to_final] <;> split_ifs <;> simp

/-- Witness for the amended C6 at a concrete failing rename. -/
theorem finalize_archive_ops_only_after_rename_witness :
    move_to_final true false false "rename" = (false, [OpK.moveDir]) := by
  have h := (finalize_archive_ops_only_after_rename false "rename").1
  simpa using h

theorem dlPhase_ok (e : ItemEnv) (a : Acc) (hdl : e.downloadOk = true) :
    ∃ o u, dlPhase e a = (⟨o, u⟩, true) ∧
      ∀ k ∈ o, k ∈ a.ops ∨ k = OpK.download := by
  simp only [dlPhase]
  split_ifs <;>
    first
      | exact absurd hdl (by assumption)
      | (refine ⟨_, _, rfl, ?_⟩
         intro k hk
         try simp only [List.mem_append, List.mem_cons, List.not_mem_nil,
           or_false] at hk
         tauto)

theorem upPhase_ok (e : ItemEnv) (a : Acc) (hup : e.uploadOk = true) :
    ∃ o u, upPhase e a = (⟨o, u⟩, true) ∧
      ∀ k ∈ o, k ∈ a.ops ∨ k = OpK.upload := by
  simp only [upPhase]
  split_ifs <;>
    first
      | exact absurd hup (by assumption)
      | (refine ⟨_, _, rfl, ?_⟩
         intro k hk
         try simp only [List.mem_append, List.mem_cons, List.not_mem_nil,
           or_false] at hk
         tauto)

theorem extractPhase_ok (e : ItemEnv) (a : Acc)
    (hex : e.extractOk1 = true) :
    ∃ o u, extractPhase e a = (⟨o, u⟩, true) ∧
      ∀ k ∈ o, k ∈ a.ops ∨
        k ∈ [OpK.probeWorkDir, OpK.removeDataDir, OpK.extractZip 1] := by
  simp only [extractPhase]
  split_ifs <;>
    first
      | exact absurd hex (by assumption)
      | (refine ⟨_, _, rfl, ?_⟩
         intro k hk
         simp only [List.mem_append, List.mem_cons, List.not_mem_nil,
           or_false, false_or, List.append_nil] at hk ⊢
         tauto)

theorem checkPhase_fail (e : ItemEnv) (a : Acc) (n : Nat)
    (hok : e.checkScriptOk = true) (hn : e.issueFrames = n)
    (hpos : 0 < n) :
    checkPhase e a =
      (⟨a.ops ++ [OpK.runCheck, OpK.probeKf, OpK.downloadReport],
        a.ups ++ [(ProcessStatus.checked, some (checkFailMsg n))]⟩,
        false) := by
  simp [checkPhase, hok, hn, hpos.ne']

/-- C7: when the remote check script succeeds and reports a positive issue
count, the item is marked CHECKED with an error naming the count, the
report is downloaded locally, finalize never runs (no move, no archive
handling, no backup), and the per-item processing returns false. -/
theorem check_failure_marks_checked_and_stops (e : ItemEnv) (n : Nat)
    (hdl : e.downloadOk = true) (hup : e.uploadOk = true)
    (hex : e.extractOk1 = true) (hok : e.checkScriptOk = true)
    (hn : e.issueFrames = n) (hpos : 0 < n) :
    (processSingle e).ok = false ∧
    (processSingle e).updates.getLast? =
      some (ProcessStatus.checked, some (checkFailMsg n)) ∧
    OpK.downloadReport ∈ (processSingle e).ops ∧
    OpK.moveDir ∉ (processSingle e).ops ∧
    OpK.renameRemoteZip ∉ (processSingle e).ops ∧
    OpK.deleteRemoteZip ∉ (processSingle e).ops ∧
    OpK.nasBackup ∉ (processSingle e).ops := by
  obtain ⟨o1, u1, he1, hs1⟩ := dlPhase_ok e ⟨[], []⟩ hdl
  obtain ⟨o2, u2, he2, hs2⟩ := upPhase_ok e ⟨o1, u1⟩ hup
  obtain ⟨o3, u3, he3, hs3⟩ := extractPhase_ok e ⟨o2, u2⟩ hex
  have he4 := checkPhase_fail e ⟨o3, u3⟩ n hok hn hpos
  have hps : processSingle e =
      ⟨o3 ++ [OpK.runCheck, OpK.probeKf, OpK.downloadReport],
        u3 ++ [(ProcessStatus.checked, some (checkFailMsg n))], false⟩ := by
    simp [processSingle, he1, he2, he3, he4]
  have ho3 : ∀ k ∈ o3, k ∈ [OpK.download, OpK.upload, OpK.probeWorkDir,
      OpK.removeDataDir, OpK.extractZip 1] := by
    intro k hk
    rcases hs3 k hk with h | h
    · rcases hs2 k h with h2 | h2
      · rcases hs1 k h2 with h3 | h3
        · simp at h3
        · simp [h3]
      · simp [h2]
    · simp only [List.mem_cons, List.not_mem_nil, or_false] at h ⊢
      tauto
  rw [hps]
  refine ⟨rfl, ?_, ?_, ?_, ?_, ?_, ?_⟩
  · exact List.getLast?_concat _
  · simp
  all_goals
    intro hk
    rcases List.mem_append.mp hk with h | h
    · have := ho3 _ h
      simp_all
    · simp_all

/-- Witness for C7 at a concrete environment reporting 3 issue frames. -/
theorem check_failure_marks_checked_and_stops_witness :
    (processSingle ⟨false, false, false, true, true, false, true, true, 0,
        true, true, "", true, 3, 5, true, false, true, "rename", false,
        true, false⟩).ok = false ∧
    (processSingle ⟨false, false, false, true, true, false, true, true, 0,
        true, true, "", true, 3, 5, true, false, true, "rename", false,
        true, false⟩).updates.getLast? =
      some (ProcessStatus.checked, some (checkFailMsg 3)) ∧
    OpK.downloadReport ∈ (processSingle ⟨false, false, false, true, true,
        false, true, true, 0, true, true, "", true, 3, 5, true, false,
        true, "rename", false, true, false⟩).ops ∧
    OpK.moveDir ∉ (processSingle ⟨false, false, false, true, true, false,
        true, true, 0, true, true, "", true, 3, 5, true, false, true,
        "rename", false, true, false⟩).ops ∧
    OpK.renameRemoteZip ∉ (processSingle ⟨false, false, false, true, true,
        false, true, true, 0, true, true, "", true, 3, 5, true, false,
        true, "rename", false, true, false⟩).ops ∧
    OpK.deleteRemoteZip ∉ (processSingle ⟨false, false, false, true, true,
        false, true, true, 0, true, true, "", true, 3, 5, true, false,
        true, "rename", false, true, false⟩).ops ∧
    OpK.nasBackup ∉ (processSingle ⟨false, false, false, true, true,
        false, true, true, 0, true, true, "", true, 3, 5, true, false,
        true, "rename", false, true, false⟩).ops :=
  check_failure_marks_checked_and_stops _ 3 rfl rfl rfl rfl rfl
    (by decide)

theorem classifyItems_mem_fst (dirs : List String) (kf : String → Nat)
    (stems : List String) (s : String) (hs : s ∈ stems)
    (hcond : s ∈ dirs ∧ 0 < kf s) :
    s ∈ (classifyItems dirs kf stems).1 := by
  induction stems with
  | nil => cases hs
  | cons a rest ih =>
    simp only [classifyItems]
    rcases List.mem_cons.mp hs with rfl | hmem
    · rw [if_pos hcond]
      exact List.mem_cons_self _ _
    · split_ifs with h
      · exact List.mem_cons_of_mem _ (ih hmem)
      · exact ih hmem

theorem classifyItems_snd_nocond (dirs : List String) (kf : String → Nat)
    (stems : List String) :
    ∀ t ∈ (classifyItems dirs kf stems).2, ¬(t ∈ dirs ∧ 0 < kf t) := by
  induction stems with
  | nil => intro t ht; simp [classifyItems] at ht
  | cons a rest ih =>
    intro t ht
    simp only [classifyItems] at ht
    split_ifs at ht with h
    · exact ih t ht
    · rcases List.mem_cons.mp ht with rfl | hmem
      · exact h
      · exact ih t hmem

/-- C8: an item whose finalized remote directory exists and whose sanity
probe reports a positive count is classified as already complete, is not
scheduled for processing, and no per-item operation of the run (download,
upload, extraction or anything else) is tagged with its stem. -/
theorem already_complete_item_gets_no_ops (dirs : List String)
    (kf : String → Nat) (stems : List String) (env : String → ItemEnv)
    (s : String) (hs : s ∈ stems) (hdir : s ∈ dirs) (hkf : 0 < kf s) :
    s ∈ (classifyItems dirs kf stems).1 ∧
    s ∉ (classifyItems dirs kf stems).2 ∧
    ∀ p ∈ runRemoteOps dirs kf stems env, p.1 ≠ s := by
  refine ⟨classifyItems_mem_fst dirs kf stems s hs ⟨hdir, hkf⟩, ?_, ?_⟩
  · intro hsnd
    exact classifyItems_snd_nocond dirs kf stems s hsnd ⟨hdir, hkf⟩
  · intro p hp heq
    obtain ⟨t, htmem, hpt⟩ := List.mem_flatMap.mp hp
    obtain ⟨k, _, rfl⟩ := List.mem_map.mp hpt
    apply classifyItems_snd_nocond dirs kf stems t htmem
    rw [show t = s from heq]
    exact ⟨hdir, hkf⟩

/-- Witness for C8 at a concrete one-item run. -/
theorem already_complete_item_gets_no_ops_witness :
    "B2" ∈ (classifyItems ["B2"] (fun _ => 3) ["B2"]).1 ∧
    "B2" ∉ (classifyItems ["B2"] (fun _ => 3) ["B2"]).2 ∧
    ∀ p ∈ runRemoteOps ["B2"] (fun _ => 3) ["B2"]
      (fun _ => ⟨false, false, false, true, true, false, true, true, 0,
        true, true, "", true, 0, 5, true, false, true, "rename", false,
        true, false⟩), p.1 ≠ "B2" :=
  already_complete_item_gets_no_ops ["B2"] (fun _ => 3) ["B2"]
    (fun _ => ⟨false, false, false, true, true, false, true, true, 0,
      true, true, "", true, 0, 5, true, false, true, "rename", false,
      true, false⟩) "B2" (by simp) (by simp) (by decide)

theorem poolRun_invariant (ops : List PoolOp) (st : PoolState) :
    (poolRun st ops).1.size = st.size ∧
    (poolRun st ops).1.created = st.created + (poolRun st ops).2 ∧
    (st.created ≤ st.size → (poolRun st ops).1.created ≤ st.size) := by
  induction ops generalizing st with
  | nil => simp [poolRun]
  | cons op rest ih =>
    obtain ⟨hsize, hcreated, hmono⟩ := ih (poolStep st op).1
    have hstep : (poolStep st op).1.size = st.size ∧
        (poolStep st op).1.created = st.created +
          (if (poolStep st op).2 = some GetRes.newConn then 1 else 0) ∧
        ((poolStep st op).2 = some GetRes.newConn →
          st.created < st.size) := by
      cases op <;> simp only [poolStep] <;> split_ifs <;> simp_all
    refine ⟨?_, ?_, ?_⟩
    · simp only [poolRun]
      rw [hsize, hstep.1]
    · simp only [poolRun]
      rw [hcreated, hstep.2.1]
      omega
    · intro hle
      simp only [poolRun]
      rw [← hstep.1]
      apply hmono
      rw [hstep.1, hstep.2.1]
      by_cases hn : (poolStep st op).2 = some GetRes.newConn
      · have := hstep.2.2 hn
        simp only [hn, if_pos]
        omega
      · simp only [hn, if_neg, if_false]
        simpa using hle

/-- C9: over every operation sequence on a pool of size N, the number of
connections ever created is at most N, a new connection is created by a
`get` only while fewer than N exist, and otherwise `get` either takes an
idle pooled connection or waits for one to be returned. -/
theorem pool_never_exceeds_size (n : Nat) (ops : List PoolOp) :
    (poolRun (poolInit n) ops).2 ≤ n ∧
    (poolRun (poolInit n) ops).1.created ≤ n ∧
    ∀ (st : PoolState) (c : Bool),
      ((poolStep st (PoolOp.get c)).2 = some GetRes.newConn →
        st.created < st.size) ∧
      (0 < st.idle →
        poolStep st (PoolOp.get c) =
          ({ st with idle := st.idle - 1 }, some GetRes.fromPool)) ∧
      (st.idle = 0 → st.size ≤ st.created →
        poolStep st (PoolOp.get c) = (st, some GetRes.waited)) := by
  obtain ⟨hsize, hcreated, hmono⟩ := poolRun_invariant ops (poolInit n)
  have hc : (poolRun (poolInit n) ops).1.created ≤ n := by
    have := hmono (by simp [poolInit])
    simpa [poolInit] using this
  refine ⟨?_, hc, ?_⟩
  · have : (poolRun (poolInit n) ops).1.created =
        (poolRun (poolInit n) ops).2 := by
      simpa [poolInit] using hcreated
    omega
  · intro st c
    refine ⟨?_, ?_, ?_⟩
    · intro h
      by_contra hlt
      simp only [poolStep] at h
      split_ifs at h <;> simp_all
    · intro h
      simp [poolStep, h]
    · intro h1 h2
      simp [poolStep, h1, Nat.not_lt.mpr h2]

/-- Witness for C9 at a concrete pool of size 2 driven past its bound. -/
theorem pool_never_exceeds_size_witness :
    (poolRun (poolInit 2)
      [PoolOp.get true, PoolOp.get true, PoolOp.get true]).2 ≤ 2 :=
  (pool_never_exceeds_size 2
    [PoolOp.get true, PoolOp.get true, PoolOp.get true]).1

/-- C10: for every stem, the candidate archive-name list is non-empty,
every candidate ends in ".zip", the list has no duplicates, and the
unmodified name stem + ".zip" is always among the candidates, so the
download fallback loop eventually tries it. -/
theorem zip_candidates_sound (stem : List Char) :
    get_zip_name_candidates stem ≠ [] ∧
    (∀ c ∈ get_zip_name_candidates stem, List.IsSuffix zipSuffix c) ∧
    (get_zip_name_candidates stem).Nodup ∧
    (stem ++ zipSuffix) ∈ get_zip_name_candidates stem := by
  have hne : ∀ x y : List Char, x ≠ y → x ++ zipSuffix ≠ y ++ zipSuffix :=
    fun x y hxy h => hxy (List.append_cancel_right h)
  by_cases hA : stripNumRere stem ∉ [stripRere stem] ∧
      stripNumRere stem ≠ stem
  · have hc2c1 : stripNumRere stem ≠ stripRere stem := by
      intro h
      exact hA.1 (by simp [h])
    by_cases hB : stem = stripRere stem
    · have hmem : ¬ stem ∉ ([stripRere stem] ++ [stripNumRere stem]) := by
        intro hcon
        simp only [List.singleton_append, List.mem_cons,
          List.not_mem_nil, or_false, not_or] at hcon
        exact hcon.1 hB
      have hout : get_zip_name_candidates stem =
          [stripRere stem ++ zipSuffix, stripNumRere stem ++ zipSuffix] := by
        simp only [get_zip_name_candidates, if_pos hA, if_neg hmem]
        rfl
      rw [hout]
      refine ⟨by simp, ?_, ?_, ?_⟩
      · intro c hc
        rcases List.mem_cons.mp hc with rfl | hc
        · exact List.suffix_append _ _
        · rcases List.mem_singleton.mp hc with rfl
          exact List.suffix_append _ _
      · simp only [List.nodup_cons, List.mem_singleton, List.nodup_nil,
          List.not_mem_nil, not_false_iff, and_true]
        exact hne _ _ (Ne.symm hc2c1)
      · exact List.mem_cons.mpr (Or.inl (congrArg (· ++ zipSuffix) hB))
    · have hmem : stem ∉ ([stripRere stem] ++ [stripNumRere stem]) := by
        simp only [List.singleton_append, List.mem_cons,
          List.not_mem_nil, or_false, not_or]
        exact ⟨hB, fun h => hA.2 h.symm⟩
      have hout : get_zip_name_candidates stem =
          [stripRere stem ++ zipSuffix, stripNumRere stem ++ zipSuffix,
            stem ++ zipSuffix] := by
        simp only [get_zip_name_candidates, if_pos hA, if_pos hmem]
        rfl
      rw [hout]
      refine ⟨by simp, ?_, ?_, by simp⟩
      · intro c hc
        rcases List.mem_cons.mp hc with rfl | hc
        · exact List.suffix_append _ _
        · rcases List.mem_cons.mp hc with rfl | hc
          · exact List.suffix_append _ _
          · rcases List.mem_singleton.mp hc with rfl
            exact List.suffix_append _ _
      · simp only [List.nodup_cons, List.mem_cons, List.mem_singleton,
          List.nodup_nil, List.not_mem_nil, not_false_iff, and_true,
          not_or, or_false]
        refine ⟨⟨?_, ?_⟩, ?_⟩
        · exact hne _ _ (Ne.symm hc2c1)
        · exact hne _ _ (fun h => hB h.symm)
        · exact hne _ _ hA.2
  · by_cases hB : stem = stripRere stem
    · have hmem : ¬ stem ∉ [stripRere stem] := by
        intro hcon
        have h1 : ¬ stem = stripRere stem := by simpa using hcon
        exact h1 hB
      have hout : get_zip_name_candidates stem =
          [stripRere stem ++ zipSuffix] := by
        simp only [get_zip_name_candidates, if_neg hA, if_neg hmem]
      rw [hout]
      refine ⟨by simp, ?_, by simp, ?_⟩
      · intro c hc
        rcases List.mem_singleton.mp hc with rfl
        exact List.suffix_append _ _
      · exact List.mem_singleton.mpr (congrArg (· ++ zipSuffix) hB)
    · have hmem : stem ∉ [stripRere stem] := by
        simpa using hB
      have hout : get_zip_name_candidates stem =
          [stripRere stem ++ zipSuffix, stem ++ zipSuffix] := by
        simp only [get_zip_name_candidates, if_neg hA, if_pos hmem]
        rfl
      rw [hout]
      refine ⟨by simp, ?_, ?_, by simp⟩
      · intro c hc
        rcases List.mem_cons.mp hc with rfl | hc
        · exact List.suffix_append _ _
        · rcases List.mem_singleton.mp hc with rfl
          exact List.suffix_append _ _
      · simp only [List.nodup_cons, List.mem_singleton, List.nodup_nil,
          List.not_mem_nil, not_false_iff, and_true]
        exact hne _ _ (fun h => hB h.symm)

/-- Witness for C10 at a concrete stem carrying a rere suffix. -/
theorem zip_candidates_sound_witness :
    ("a_rere_1".toList ++ zipSuffix) ∈
      get_zip_name_candidates "a_rere_1".toList :=
  (zip_candidates_sound "a_rere_1".toList).2.2.2

/-- C4: uploading a zero-length local file with no pre-existing temp file
fails in the code: the transfer loop is skipped (0 bytes uploaded already
covers 0 bytes total), so the temp file is never created, and the
post-transfer stat of the temp file raises, making `upload_file` return
False with nothing written.  The spec says zero-length files transfer
trivially. -/
theorem upload_empty_file_fails :
    upload_file (fun l : List Nat => l.sum) [] ⟨none, none⟩ true true =
      ⟨false, ⟨none, none⟩, 0⟩ := by
  rfl

end AnnotaPipe
